import Mathlib

/-
Verification of the package-bootstrap subsystem of virtualenv-rs
(src/packages.rs): wheel caching, directory replication, console-script
entry-point handling, launcher generation and the installer orchestrator.

Each Rust function is shallowly embedded as an executable Lean definition;
filesystem and network effects are made explicit (directory trees as an
inductive type, download step outcomes as an environment record, installer
writes as an action log).
-/

set_option autoImplicit false

namespace VirtualenvRs

/-! ### String helpers -/

/-- The single-quote character (U+0027), used in generated script text. -/
def sq : String := String.singleton (Char.ofNat 39)

/-- The double-quote character (U+0022), used in debug-formatted values. -/
def dq : String := String.singleton (Char.ofNat 34)

/-- The newline character. -/
def nl : String := String.singleton (Char.ofNat 10)

/-- Does `hay` start with `needle`? (on character lists) -/
def beginsWith : List Char → List Char → Bool
  | [], _ => true
  | _ :: _, [] => false
  | a :: as, b :: bs => a == b && beginsWith as bs

/-- Does `needle` occur contiguously inside `hay`? (on character lists) -/
def hasSubChars (needle : List Char) : List Char → Bool
  | [] => needle.isEmpty
  | c :: rest => beginsWith needle (c :: rest) || hasSubChars needle rest

/-- Does the string `needle` occur contiguously inside the string `hay`? -/
def hasSub (hay needle : String) : Bool :=
  hasSubChars needle.toList hay.toList

/-- First line of a string: everything before the first newline. -/
def firstLine (s : String) : String :=
  String.mk (s.toList.takeWhile (fun c => c ≠ Char.ofNat 10))

/-! ### `str::split_once` (used on entry-point values) -/

/-- `split_once` on character lists: split at the first occurrence of `c`,
`none` when `c` does not occur.  Mirrors Rust `str::split_once`. -/
def splitOnceChars (c : Char) : List Char → Option (List Char × List Char)
  | [] => none
  | x :: xs =>
    if x = c then some ([], xs)
    else (splitOnceChars c xs).map (fun p => (x :: p.1, p.2))

/-- Rust `value.split_once(c)` on strings. -/
def split_once (s : String) (c : Char) : Option (String × String) :=
  (splitOnceChars c s.toList).map (fun p => (String.mk p.1, String.mk p.2))

/-- Rust `{value:?}` debug formatting of an `Option<String>` (no escaping,
none of the claims depends on escape sequences). -/
def debugOpt : Option String → String
  | none => "None"
  | some s => "Some(" ++ dq ++ s ++ dq ++ ")"

/-- One `console_scripts` entry processed as in `install_base_packages`:
`value.as_ref().and_then(|value| value.split_once(':')).ok_or_else(...)`,
with the error message built by the `format_err!` at src/packages.rs:89. -/
def parse_entry (name key : String) (value : Option String) :
    Except String (String × String) :=
  match value.bind (fun v => split_once v ':') with
  | some p => Except.ok p
  | none =>
    Except.error
      (name ++ " entry_points.txt " ++ key ++ " has an invalid value " ++ debugOpt value)

/-! ### `unix_launcher_script` (src/packages.rs:123) -/

/-- The launcher template of `unix_launcher_script`, reproduced byte for byte
(the Rust `format!` raw-string template with its three substitutions). -/
def unix_launcher_script (python import_from function : String) : String :=
  "#!" ++ python ++ nl ++
  "    # -*- coding: utf-8 -*-" ++ nl ++
  "import re" ++ nl ++
  "import sys" ++ nl ++
  "from " ++ import_from ++ " import " ++ function ++ nl ++
  "if __name__ == " ++ sq ++ "__main__" ++ sq ++ ":" ++ nl ++
  "    sys.argv[0] = re.sub(r" ++ sq ++ "(-script\\.pyw|\\.exe)?$" ++ sq ++ ", " ++
    sq ++ sq ++ ", sys.argv[0])" ++ nl ++
  "    sys.exit(" ++ function ++ "())" ++ nl

/-! ### Directory trees and `copy_dir_all` (src/packages.rs:107) -/

/-- A filesystem node: a regular file with its byte content (modelled as a
string) or a directory with named entries.  Symlinks/special files are out of
scope (the spec explicitly leaves them unspecified). -/
inductive Node where
  | file (content : String)
  | dir (entries : List (String × Node))

/-- Association-list lookup by name (first match wins, as directory listings
have unique names). -/
def alookup {α : Type} (n : String) : List (String × α) → Option α
  | [] => none
  | (m, v) :: rest => if m = n then some v else alookup n rest

/-- Replace the binding for `n` (or append it) in an association list; models
creating/overwriting the directory entry `n`. -/
def aset {α : Type} (n : String) (v : α) : List (String × α) → List (String × α)
  | [] => [(n, v)]
  | (m, w) :: rest => if m = n then (n, v) :: rest else (m, w) :: aset n v rest

/-- Well-formed node: every directory's entry names are distinct (true of any
real directory listing produced by `read_dir`). -/
def nodeWf : Node → Bool
  | Node.file _ => true
  | Node.dir [] => true
  | Node.dir ((n, v) :: rest) =>
    !((rest.map Prod.fst).contains n) && nodeWf v && nodeWf (Node.dir rest)
termination_by n => sizeOf n
decreasing_by all_goals (simp_wf; try omega)

/-- The entry loop of `copy_dir_all`: fold the source entries over the
destination entries.  A file entry is copied with `fs::copy` (fails if the
destination holds a directory of that name, overwrites otherwise); a directory
entry recurses after `fs::create_dir_all` (which fails if a file of that name
is already present at the destination). -/
def copyEntries : List (String × Node) → List (String × Node) →
    Except String (List (String × Node))
  | [], d => Except.ok d
  | (name, Node.file c) :: rest, d =>
    match alookup name d with
    | some (Node.dir _) => Except.error name
    | _ => copyEntries rest (aset name (Node.file c) d)
  | (name, Node.dir es) :: rest, d =>
    match alookup name d with
    | some (Node.file _) => Except.error name
    | some (Node.dir dEs) =>
      match copyEntries es dEs with
      | Except.ok sub => copyEntries rest (aset name (Node.dir sub) d)
      | Except.error e => Except.error e
    | none =>
      match copyEntries es [] with
      | Except.ok sub => copyEntries rest (aset name (Node.dir sub) d)
      | Except.error e => Except.error e
termination_by l _ => sizeOf l
decreasing_by all_goals (simp_wf; try omega)

/-- `copy_dir_all(src, dst)`: `fs::create_dir_all(&dst)` first (fails when a
file sits at `dst`), then iterate over `read_dir(src)` (fails when `src` is
not a directory), merging into whatever already sits at `dst`.  The result is
the node found at `dst` after the call. -/
def copy_dir_all (src : Node) (dst : Option Node) : Except String Node :=
  match dst with
  | some (Node.file _) => Except.error "create_dir_all"
  | some (Node.dir dEs) =>
    match src with
    | Node.file _ => Except.error "read_dir"
    | Node.dir es => (copyEntries es dEs).map Node.dir
  | none =>
    match src with
    | Node.file _ => Except.error "read_dir"
    | Node.dir es => (copyEntries es []).map Node.dir

/-- Look up the node at a relative path (list of components) below a node. -/
def lookupPath : List String → Node → Option Node
  | [], node => some node
  | _ :: _, Node.file _ => none
  | n :: p, Node.dir es => (alookup n es).bind (lookupPath p)

/-! ### `download_wheel_cached` (src/packages.rs:9) -/

/-- Outcome of each effectful step of one `download_wheel_cached` run, with
the underlying error text each failing step would report (those texts come
from `fs_err`/`tempfile`/`minreq` and are opaque to this code). -/
structure DlEnv where
  createDirOk : Bool
  createDirMsg : String
  tempfileOk : Bool
  tempfileMsg : String
  connectOk : Bool
  connectMsg : String
  /-- `some bytes`: the streamed body arrives in full; `none`: `io::copy`
  fails mid-stream. -/
  body : Option (List Nat)
  copyMsg : String
  persistOk : Bool
  persistMsg : String

/-- What one `download_wheel_cached` call leaves behind. -/
structure DlResult where
  /-- Content of the regular file at the final cache path after the call
  (`none` = no file there). -/
  finalContent : Option (List Nat)
  /-- `Except.ok` carries the returned path. -/
  outcome : Except String String
  /-- Whether the call opened the network connection (`minreq::get(url).send_lazy()`). -/
  networkUsed : Bool

/-- `crate_cache_dir()?.join("wheels")`. -/
def wheels_cache_path (cacheDir : String) : String := cacheDir ++ "/wheels"

/-- `wheels_cache.join(filename)` — the final cache path. -/
def cached_wheel_path (cacheDir filename : String) : String :=
  wheels_cache_path cacheDir ++ "/" ++ filename

/-- `download_wheel_cached(filename, url)`, src/packages.rs:9-33.
`final` is the regular-file content currently at the final cache path
(`cached_wheel.is_file()` ⇔ `final.isSome`); `tempPath` is the path the
`NamedTempFile` gets.  Error strings follow the code: the `io::copy` failure
is wrapped by `with_context` naming the url and the temp path, the `persist`
failure by `with_context` naming the final path, every other failure
propagates the underlying error unchanged (`?`). -/
def download_wheel_cached (env : DlEnv) (cacheDir filename url tempPath : String)
    (final : Option (List Nat)) : DlResult :=
  if final.isSome then
    ⟨final, Except.ok (cached_wheel_path cacheDir filename), false⟩
  else if !env.createDirOk then
    ⟨final, Except.error env.createDirMsg, false⟩
  else if !env.tempfileOk then
    ⟨final, Except.error env.tempfileMsg, false⟩
  else if !env.connectOk then
    ⟨final, Except.error env.connectMsg, true⟩
  else
    match env.body with
    | none =>
      ⟨final,
        Except.error
          ("Failed to download wheel from " ++ url ++ " to " ++ tempPath ++ ": " ++ env.copyMsg),
        true⟩
    | some bytes =>
      if env.persistOk then
        ⟨some bytes, Except.ok (cached_wheel_path cacheDir filename), true⟩
      else
        ⟨final,
          Except.error
            ("Failed to persist tempfile to " ++ cached_wheel_path cacheDir filename
              ++ ": " ++ env.persistMsg),
          true⟩

/-! ### `install_base_packages` (src/packages.rs:37) -/

/-- A filesystem write performed by the installer, tagged with the package
being processed when it happened. -/
inductive Action where
  | copyTree (pkg : String) (src dst : String)
  | writeFile (pkg : String) (path content : String)
  | setPermissions (pkg : String) (path : String) (mode : Nat)
deriving DecidableEq

/-- The three paths the installer consumes (its three `&Utf8Path` arguments). -/
structure InstallTarget where
  bin_dir : String
  venv_python : String
  site_packages : String

/-- Result of `Ini::new_cs().read`: section name → key → optional raw value. -/
abbrev IniTable : Type := List (String × List (String × Option String))

/-- Outcome of the effectful steps of one package's installation: whether the
tree copy succeeds, what reading+parsing `entry_points.txt` yields (`none` =
file missing, `some (.error e)` = `configparser` rejects the text, `some
(.ok table)` = parsed table), and whether each launcher write / permission
change succeeds. -/
structure PkgOutcome where
  copyOk : Bool
  iniRead : Option (Except String IniTable)
  writeOk : String → Bool
  writeMsg : String → String
  permsOk : String → Bool
  permsMsg : String → String

/-- `virtualenv_data_dir.join(prefix).join(format!("{name}-{version}-{wheel_tag}"))`. -/
def unpacked_wheel_path (dataDir name version : String) : String :=
  dataDir ++ "/virtualenv/wheel/3.11/image/1/CopyPipInstall/" ++ name ++ "-" ++ version
    ++ "-py3-none-any"

/-- The actions the loop body performs for one successfully parsed
`console_scripts` entry: `fs::write` of the rendered launcher, then — only
under `#[cfg(target_family = "unix")]` — `fs::set_permissions` with mode
`0o755` (= 493). -/
def entryActions (unixFamily : Bool) (target : InstallTarget)
    (pkg key import_from function : String) : List Action :=
  Action.writeFile pkg (target.bin_dir ++ "/" ++ key)
      (unix_launcher_script target.venv_python import_from function)
    :: (if unixFamily then
         [Action.setPermissions pkg (target.bin_dir ++ "/" ++ key) 493]
       else [])

/-- The `for (key, value) in entry_points_mapping.get("console_scripts")...`
loop: each entry is split on the first `:` (`parse_entry`), the launcher is
written and marked executable; any failure aborts, keeping the log of writes
already performed. -/
def installEntries (unixFamily : Bool) (o : PkgOutcome) (target : InstallTarget)
    (pkg : String) : List (String × Option String) → List Action →
    List Action × Option String
  | [], log => (log, none)
  | (key, value) :: rest, log =>
    match parse_entry pkg key value with
    | Except.error e => (log, some e)
    | Except.ok (import_from, function) =>
      if o.writeOk key then
        let log1 := log ++ [Action.writeFile pkg (target.bin_dir ++ "/" ++ key)
          (unix_launcher_script target.venv_python import_from function)]
        if unixFamily then
          if o.permsOk key then
            installEntries unixFamily o target pkg rest
              (log1 ++ [Action.setPermissions pkg (target.bin_dir ++ "/" ++ key) 493])
          else (log1, some (o.permsMsg key))
        else installEntries unixFamily o target pkg rest log1
      else (log, some (o.writeMsg key))

/-- One iteration of the package loop (src/packages.rs:59-101): copy the
unpacked wheel tree into site-packages, read and parse `entry_points.txt`,
then write one launcher per `console_scripts` entry.  Returns the action log
and `some errorMessage` on failure. -/
def installPackage (unixFamily : Bool) (o : PkgOutcome) (target : InstallTarget)
    (dataDir name version : String) (log : List Action) :
    List Action × Option String :=
  if o.copyOk then
    let log1 := log ++ [Action.copyTree name (unpacked_wheel_path dataDir name version)
      target.site_packages]
    match o.iniRead with
    | none => (log1, some (name ++ " should have an entry_points.txt"))
    | some (Except.error e) =>
      (log1, some (name ++ " entry_points.txt is invalid: " ++ e))
    | some (Except.ok table) =>
      installEntries unixFamily o target name
        ((alookup "console_scripts" table).getD []) log1
  else
    (log, some ("Failed to copy " ++ unpacked_wheel_path dataDir name version ++ " to "
      ++ target.site_packages))

/-- The fixed compiled-in package list (src/packages.rs:51-55). -/
def base_packages : List (String × String) :=
  [("pip", "23.2.1"), ("setuptools", "68.2.2"), ("wheel", "0.41.2")]

/-- The `for (name, version) in packages` loop: sequential, aborts on the
first package failure, keeping the log of writes already performed. -/
def installList (unixFamily : Bool) (env : String → PkgOutcome) (target : InstallTarget)
    (dataDir : String) : List (String × String) → List Action →
    List Action × Option String
  | [], log => (log, none)
  | (name, version) :: rest, log =>
    match installPackage unixFamily (env name) target dataDir name version log with
    | (log1, none) => installList unixFamily env target dataDir rest log1
    | (log1, some e) => (log1, some e)

/-- `install_base_packages` (src/packages.rs:37-103): resolve the data dir
(failing with the `context` message when it cannot be determined), then
process the fixed package list. -/
def install_base_packages (unixFamily : Bool) (env : String → PkgOutcome)
    (target : InstallTarget) (dataDirOk : Bool) (dataDir : String) :
    List Action × Option String :=
  if dataDirOk then installList unixFamily env target dataDir base_packages []
  else ([], some ("Couldn" ++ sq ++ "t get data dir"))

/-- The actions one package's installation performs when started on an empty
log, and the error it stops with (if any). -/
def pkgRun (unixFamily : Bool) (env : String → PkgOutcome) (target : InstallTarget)
    (dataDir : String) (nv : String × String) : List Action × Option String :=
  installPackage unixFamily (env nv.1) target dataDir nv.1 nv.2 []

/-- The package an action was performed for. -/
def actPkg : Action → String
  | Action.copyTree pkg _ _ => pkg
  | Action.writeFile pkg _ _ => pkg
  | Action.setPermissions pkg _ _ => pkg

/-- Concatenation of a list of action lists. -/
def concatAll : List (List Action) → List Action
  | [] => []
  | l :: ls => l ++ concatAll ls

/-! ## Helper lemmas -/

theorem beginsWith_self_append (n t : List Char) : beginsWith n (n ++ t) = true := by
  induction n with
  | nil => rfl
  | cons a as ih => simp [beginsWith, ih]

theorem hasSubChars_mid (a n b : List Char) : hasSubChars n (a ++ (n ++ b)) = true := by
  induction a with
  | nil =>
    cases n with
    | nil => cases b <;> simp [hasSubChars, beginsWith]
    | cons c cs =>
      have hb := beginsWith_self_append (c :: cs) b
      simp only [List.cons_append] at hb
      simp [hasSubChars, hb]
  | cons c cs ih => simp [hasSubChars, ih]

/-- A string of shape `a ++ needle ++ b` contains `needle`. -/
theorem hasSub_concat (a needle b : String) : hasSub ((a ++ needle) ++ b) needle = true := by
  have h : ((a ++ needle) ++ b).toList = a.toList ++ (needle.toList ++ b.toList) := by
    simp [String.data_append, List.append_assoc]
  rw [hasSub, h]
  exact hasSubChars_mid _ _ _

theorem splitOnceChars_eq_some (c : Char) (l a b : List Char) :
    splitOnceChars c l = some (a, b) ↔ l = a ++ c :: b ∧ c ∉ a := by
  induction l generalizing a with
  | nil => simp [splitOnceChars]
  | cons x xs ih =>
    by_cases hx : x = c
    · subst hx
      have hunf : splitOnceChars x (x :: xs) = some ([], xs) := by simp [splitOnceChars]
      rw [hunf]
      constructor
      · intro h
        have e1 : ([] : List Char) = a := congrArg Prod.fst (Option.some.inj h)
        have e2 : xs = b := congrArg Prod.snd (Option.some.inj h)
        subst e1
        subst e2
        exact ⟨rfl, by simp⟩
      · rintro ⟨heq, hmem⟩
        cases a with
        | nil =>
          rw [List.nil_append] at heq
          injection heq with h1 h2
          rw [h2]
        | cons a0 as =>
          rw [List.cons_append] at heq
          injection heq with h1 h2
          exact absurd (by rw [h1]; exact List.mem_cons_self a0 as) hmem
    · simp only [splitOnceChars, if_neg hx]
      constructor
      · intro h
        obtain ⟨⟨a', b'⟩, hsp, heq⟩ := Option.map_eq_some'.mp h
        have e1 : x :: a' = a := congrArg Prod.fst heq
        have e2 : b' = b := congrArg Prod.snd heq
        subst e2
        subst e1
        obtain ⟨h1, h2⟩ := (ih a').mp hsp
        refine ⟨by simp [h1], ?_⟩
        intro hm
        rcases List.mem_cons.mp hm with h' | h'
        · exact hx h'.symm
        · exact h2 h'
      · rintro ⟨heq, hmem⟩
        cases a with
        | nil =>
          simp only [List.nil_append, List.cons.injEq] at heq
          exact absurd heq.1 hx
        | cons a0 as =>
          simp only [List.cons_append, List.cons.injEq] at heq
          have ha0 : a0 = x := heq.1.symm
          subst ha0
          have hmem' : c ∉ as := fun hm => hmem (List.mem_cons_of_mem _ hm)
          rw [Option.map_eq_some']
          exact ⟨(as, b), (ih as).mpr ⟨heq.2, hmem'⟩, rfl⟩

theorem splitOnceChars_eq_none (c : Char) (l : List Char) :
    splitOnceChars c l = none ↔ c ∉ l := by
  induction l with
  | nil => simp [splitOnceChars]
  | cons x xs ih =>
    by_cases hx : x = c
    · subst hx; simp [splitOnceChars]
    · simp [splitOnceChars, if_neg hx, ih, Ne.symm hx]

theorem singleton_data (c : Char) : (String.singleton c).data = [c] := rfl

/-- `split_once` characterized on strings: it succeeds exactly on the split at
the first occurrence of `c`. -/
theorem split_once_eq_some (s : String) (c : Char) (a b : String) :
    split_once s c = some (a, b) ↔
      s = (a ++ String.singleton c) ++ b ∧ c ∉ a.toList := by
  constructor
  · intro h
    simp only [split_once, Option.map_eq_some'] at h
    obtain ⟨⟨la, lb⟩, hsp, heq⟩ := h
    obtain ⟨h1, h2⟩ := (splitOnceChars_eq_some c s.toList la lb).mp hsp
    have e1 : String.mk la = a := congrArg Prod.fst heq
    have e2 : String.mk lb = b := congrArg Prod.snd heq
    subst e1
    subst e2
    constructor
    · apply String.ext
      simp only [String.data_append, singleton_data, List.append_assoc, List.singleton_append]
      exact h1
    · exact h2
  · rintro ⟨heq, hmem⟩
    have hdata : s.toList = a.toList ++ c :: b.toList := by
      rw [heq]
      simp [String.data_append, singleton_data, List.append_assoc, List.singleton_append,
        String.toList]
    have hsp : splitOnceChars c s.toList = some (a.toList, b.toList) :=
      (splitOnceChars_eq_some c _ _ _).mpr ⟨hdata, hmem⟩
    simp only [split_once, hsp, Option.map_some']
    rfl

theorem split_once_eq_none (s : String) (c : Char) :
    split_once s c = none ↔ c ∉ s.toList := by
  simp [split_once, splitOnceChars_eq_none]

/-- On colon-free (or absent) values `parse_entry` produces exactly the
`format_err!` message of src/packages.rs:89. -/
theorem parse_entry_colon_free (name key : String) (value : Option String)
    (hbad : ∀ s, value = some s → ':' ∉ s.toList) :
    parse_entry name key value
      = Except.error (name ++ " entry_points.txt " ++ key ++ " has an invalid value "
          ++ debugOpt value) := by
  cases value with
  | none => rfl
  | some s =>
    have h : split_once s ':' = none := (split_once_eq_none s ':').mpr (hbad s rfl)
    simp [parse_entry, h]

/-! ## Claim C6 — launcher generator determinism and content -/

/-- C6: the launcher generator is deterministic and pure — identical inputs
give byte-identical output — and `unix_launcher_script "/usr/bin/python3"
"pkg.mod" "main"` has the literal shebang `#!/usr/bin/python3` as its first
line and contains the import line `from pkg.mod import main`. -/
theorem claim_C6_launcher_determinism_and_content :
    (∀ python import_from function : String,
        unix_launcher_script python import_from function
          = unix_launcher_script python import_from function)
    ∧ firstLine (unix_launcher_script "/usr/bin/python3" "pkg.mod" "main")
        = "#!/usr/bin/python3"
    ∧ hasSub (unix_launcher_script "/usr/bin/python3" "pkg.mod" "main")
        "from pkg.mod import main" = true :=
  ⟨fun _ _ _ => rfl, by decide, by decide⟩

/-! ## Claim C4 — entry-point separator (corrected) -/

/-- C4 counterexample: the claim says a value with two or more `:` separators
is rejected, but `split_once` only requires at least one `:`; the value
`"a:b:c"` (two separators) is accepted and split at the first `:`. -/
theorem claim_C4_counterexample :
    parse_entry "pip" "foo" (some "a:b:c") = Except.ok ("a", "b:c")
    ∧ ("a:b:c".toList.count ':') = 2 := by
  exact ⟨rfl, by decide⟩

/-- C4 as amended: deriving an entry point splits the raw value at the FIRST
`:` and fails exactly when the value is absent or contains no `:` at all;
values with two or more `:` are accepted. -/
theorem claim_C4_amended_split_at_first_colon (name key : String) (v : Option String) :
    (∀ a b : String, parse_entry name key v = Except.ok (a, b) →
        v = some ((a ++ String.singleton ':') ++ b) ∧ ':' ∉ a.toList)
    ∧ ((∃ p, parse_entry name key v = Except.ok p)
        ↔ ∃ s, v = some s ∧ ':' ∈ s.toList) := by
  cases v with
  | none =>
    constructor
    · intro a b h
      simp [parse_entry] at h
    · constructor
      · rintro ⟨p, hp⟩
        simp [parse_entry] at hp
      · rintro ⟨s, hs, _⟩
        cases hs
  | some s =>
    cases hsp : split_once s ':' with
    | none =>
      have hnot : ':' ∉ s.toList := (split_once_eq_none s ':').mp hsp
      constructor
      · intro a b h
        simp [parse_entry, hsp] at h
      · constructor
        · rintro ⟨p, hp⟩
          simp [parse_entry, hsp] at hp
        · rintro ⟨s', hs', hmem⟩
          cases hs'
          exact absurd hmem hnot
    | some p0 =>
      obtain ⟨a0, b0⟩ := p0
      obtain ⟨hs, hnot⟩ := (split_once_eq_some s ':' a0 b0).mp hsp
      constructor
      · intro a b h
        simp only [parse_entry, Option.some_bind, hsp] at h
        have e1 : a0 = a := congrArg Prod.fst (Except.ok.inj h)
        have e2 : b0 = b := congrArg Prod.snd (Except.ok.inj h)
        subst e1
        subst e2
        exact ⟨by rw [hs], hnot⟩
      · constructor
        · intro _
          refine ⟨s, rfl, ?_⟩
          rw [hs]
          simp [String.toList, String.data_append, singleton_data]
        · intro _
          exact ⟨(a0, b0), by simp [parse_entry, hsp]⟩

/-- Witness for the amended C4 at a concrete input: `"a:b:c"` splits at the
first colon into `"a"` and `"b:c"`. -/
theorem claim_C4_amended_witness :
    some "a:b:c" = some (("a" ++ String.singleton ':') ++ "b:c") ∧ ':' ∉ "a".toList :=
  (claim_C4_amended_split_at_first_colon "pip" "foo" (some "a:b:c")).1 "a" "b:c" rfl

/-! ## Claim C5 — malformed entry rejection names the key -/

/-- C5: a `console_scripts` entry whose value is absent or contains no `:`
makes the installer's entry loop fail right there, with the
`format_err!` message naming the offending key (the key occurs verbatim in
the message), and no launcher is written for it. -/
theorem claim_C5_entry_without_separator_fails_naming_key (unixFamily : Bool)
    (o : PkgOutcome) (target : InstallTarget) (pkg key : String) (value : Option String)
    (rest : List (String × Option String)) (log : List Action)
    (hbad : ∀ s, value = some s → ':' ∉ s.toList) :
    installEntries unixFamily o target pkg ((key, value) :: rest) log
      = (log, some (pkg ++ " entry_points.txt " ++ key ++ " has an invalid value "
          ++ debugOpt value))
    ∧ hasSub (pkg ++ " entry_points.txt " ++ key ++ " has an invalid value "
        ++ debugOpt value) key = true := by
  have herr := parse_entry_colon_free pkg key value hbad
  constructor
  · simp [installEntries, herr]
  · have h := hasSub_concat (pkg ++ " entry_points.txt ") key
      (" has an invalid value " ++ debugOpt value)
    simp only [String.append_assoc] at h ⊢
    exact h

/-- Witness for C5 at the spec's example: `foo = pkgmod` (value without `:`)
yields the malformed-entry error naming key `foo`. -/
theorem claim_C5_witness :
    installEntries true ⟨true, none, fun _ => true, fun _ => "", fun _ => true, fun _ => ""⟩
        ⟨"/venv/bin", "/venv/bin/python", "/venv/lib/site-packages"⟩
        "pip" [("foo", some "pkgmod")] []
      = ([], some ("pip" ++ " entry_points.txt " ++ "foo" ++ " has an invalid value "
          ++ debugOpt (some "pkgmod")))
    ∧ hasSub ("pip" ++ " entry_points.txt " ++ "foo" ++ " has an invalid value "
        ++ debugOpt (some "pkgmod")) "foo" = true :=
  claim_C5_entry_without_separator_fails_naming_key true
    ⟨true, none, fun _ => true, fun _ => "", fun _ => true, fun _ => ""⟩
    ⟨"/venv/bin", "/venv/bin/python", "/venv/lib/site-packages"⟩
    "pip" "foo" (some "pkgmod") [] []
    (by intro s hs; cases hs; decide)

/-! ## Claim C1 — wheel-cache failure handling (corrected) -/

/-- C1 counterexample: when `tempfile.persist` fails after a cache miss, the
operation fails with the message `Failed to persist tempfile to <final path>`,
which names neither the URL nor the temp file's location — so not every
post-miss I/O failure is annotated with the URL and the temp path as the
claim states. -/
theorem claim_C1_counterexample :
    (download_wheel_cached
        ⟨true, "io", true, "io", true, "io", some [1, 2, 3], "io", false, "cross-device link"⟩
        "/cache" "w.whl" "http://host/w.whl" "/cache/wheels/.tmpAB12" none).outcome
      = Except.error ("Failed to persist tempfile to " ++ cached_wheel_path "/cache" "w.whl"
          ++ ": " ++ "cross-device link")
    ∧ hasSub ("Failed to persist tempfile to " ++ cached_wheel_path "/cache" "w.whl"
        ++ ": " ++ "cross-device link") "http://host/w.whl" = false
    ∧ hasSub ("Failed to persist tempfile to " ++ cached_wheel_path "/cache" "w.whl"
        ++ ": " ++ "cross-device link") "/cache/wheels/.tmpAB12" = false :=
  ⟨rfl, by decide, by decide⟩

/-- C1 as amended: after a cache miss, every failing run leaves no file at the
final cache path (it is written only by the final, atomic persist step); the
URL-and-temp-path annotation is attached exactly to the streaming-copy
(download) failure, while the other steps propagate their own errors (the
persist failure names the final path instead). -/
theorem claim_C1_amended_failure_leaves_final_untouched (env : DlEnv)
    (cacheDir filename url tempPath e : String)
    (h : (download_wheel_cached env cacheDir filename url tempPath none).outcome
          = Except.error e) :
    (download_wheel_cached env cacheDir filename url tempPath none).finalContent = none
    ∧ (env.createDirOk = true → env.tempfileOk = true → env.connectOk = true →
        env.body = none →
          hasSub e url = true ∧ hasSub e tempPath = true) := by
  cases hcd : env.createDirOk with
  | false =>
    refine ⟨by simp [download_wheel_cached, hcd], ?_⟩
    intro h1 _ _ _
    simp at h1
  | true =>
    cases htf : env.tempfileOk with
    | false =>
      refine ⟨by simp [download_wheel_cached, hcd, htf], ?_⟩
      intro _ h2 _ _
      simp at h2
    | true =>
      cases hcn : env.connectOk with
      | false =>
        refine ⟨by simp [download_wheel_cached, hcd, htf, hcn], ?_⟩
        intro _ _ h3 _
        simp at h3
      | true =>
        cases hbody : env.body with
        | none =>
          simp only [download_wheel_cached, hcd, htf, hcn, hbody] at h
          simp only [Option.isSome_none, Bool.not_true, Bool.false_eq_true, if_false,
            Bool.not_false, if_true, Except.error.injEq] at h
          refine ⟨by simp [download_wheel_cached, hcd, htf, hcn, hbody], ?_⟩
          intro _ _ _ _
          subst h
          constructor
          · have hs := hasSub_concat "Failed to download wheel from " url
              (" to " ++ tempPath ++ ": " ++ env.copyMsg)
            simp only [String.append_assoc] at hs ⊢
            exact hs
          · have hs := hasSub_concat ("Failed to download wheel from " ++ url ++ " to ")
              tempPath (": " ++ env.copyMsg)
            simp only [String.append_assoc] at hs ⊢
            exact hs
        | some bytes =>
          cases hpk : env.persistOk with
          | true =>
            exfalso
            simp [download_wheel_cached, hcd, htf, hcn, hbody, hpk] at h
          | false =>
            refine ⟨by simp [download_wheel_cached, hcd, htf, hcn, hbody, hpk], ?_⟩
            intro _ _ _ hb
            cases hb

/-- Witness for the amended C1: a run whose streaming copy is interrupted
fails, leaves no file at the final cache path, and its error message contains
both the URL and the temp file's location. -/
theorem claim_C1_amended_witness :
    (download_wheel_cached ⟨true, "io", true, "io", true, "io", none, "connection reset",
        true, "io"⟩ "/cache" "w.whl" "http://host/w.whl" "/cache/wheels/.tmp77"
        none).finalContent = none
    ∧ hasSub ("Failed to download wheel from " ++ "http://host/w.whl" ++ " to "
        ++ "/cache/wheels/.tmp77" ++ ": " ++ "connection reset") "http://host/w.whl" = true
    ∧ hasSub ("Failed to download wheel from " ++ "http://host/w.whl" ++ " to "
        ++ "/cache/wheels/.tmp77" ++ ": " ++ "connection reset") "/cache/wheels/.tmp77"
        = true :=
  ⟨(claim_C1_amended_failure_leaves_final_untouched
      ⟨true, "io", true, "io", true, "io", none, "connection reset", true, "io"⟩
      "/cache" "w.whl" "http://host/w.whl" "/cache/wheels/.tmp77"
      ("Failed to download wheel from " ++ "http://host/w.whl" ++ " to "
        ++ "/cache/wheels/.tmp77" ++ ": " ++ "connection reset") rfl).1,
   (claim_C1_amended_failure_leaves_final_untouched
      ⟨true, "io", true, "io", true, "io", none, "connection reset", true, "io"⟩
      "/cache" "w.whl" "http://host/w.whl" "/cache/wheels/.tmp77"
      ("Failed to download wheel from " ++ "http://host/w.whl" ++ " to "
        ++ "/cache/wheels/.tmp77" ++ ": " ++ "connection reset") rfl).2
      rfl rfl rfl rfl⟩

/-! ## Claim C2 — cache idempotence -/

/-- C2: a regular file at `cache_root/wheels/filename` makes the fetch return
that path immediately with no network access; hence when a first fetch of
`(filename, url)` succeeds, exactly one network transfer happens across the
pair — the first call uses the network, and the second call (whatever its
network environment) touches no network, returns the same path, and leaves
the cached file unchanged. -/
theorem claim_C2_cache_hit_idempotent (env1 env2 : DlEnv)
    (cacheDir filename url t1 t2 : String)
    (h : ∃ p, (download_wheel_cached env1 cacheDir filename url t1 none).outcome
          = Except.ok p) :
    (∀ c : List Nat,
        download_wheel_cached env2 cacheDir filename url t2 (some c)
          = ⟨some c, Except.ok (cached_wheel_path cacheDir filename), false⟩)
    ∧ (download_wheel_cached env1 cacheDir filename url t1 none).networkUsed = true
    ∧ (download_wheel_cached env1 cacheDir filename url t1 none).outcome
        = Except.ok (cached_wheel_path cacheDir filename)
    ∧ (download_wheel_cached env2 cacheDir filename url t2
          (download_wheel_cached env1 cacheDir filename url t1 none).finalContent)
        = ⟨(download_wheel_cached env1 cacheDir filename url t1 none).finalContent,
            Except.ok (cached_wheel_path cacheDir filename), false⟩ := by
  obtain ⟨p, hp⟩ := h
  cases hcd : env1.createDirOk with
  | false => exfalso; simp [download_wheel_cached, hcd] at hp
  | true =>
    cases htf : env1.tempfileOk with
    | false => exfalso; simp [download_wheel_cached, hcd, htf] at hp
    | true =>
      cases hcn : env1.connectOk with
      | false => exfalso; simp [download_wheel_cached, hcd, htf, hcn] at hp
      | true =>
        cases hbody : env1.body with
        | none => exfalso; simp [download_wheel_cached, hcd, htf, hcn, hbody] at hp
        | some bytes =>
          cases hpk : env1.persistOk with
          | false => exfalso; simp [download_wheel_cached, hcd, htf, hcn, hbody, hpk] at hp
          | true =>
            refine ⟨?_, ?_, ?_, ?_⟩
            · intro c; simp [download_wheel_cached]
            · simp [download_wheel_cached, hcd, htf, hcn, hbody, hpk]
            · simp [download_wheel_cached, hcd, htf, hcn, hbody, hpk]
            · simp [download_wheel_cached, hcd, htf, hcn, hbody, hpk]

/-- Witness for C2: a successful first fetch (miss) followed by a second
fetch running in a failing network environment: the second still succeeds
without the network. -/
theorem claim_C2_witness :
    (download_wheel_cached ⟨true, "", true, "", true, "", some [7, 7], "", true, ""⟩
          "/cache" "w.whl" "http://host/w.whl" ".t1" none).networkUsed = true
    ∧ (download_wheel_cached ⟨true, "", true, "", true, "", some [7, 7], "", true, ""⟩
          "/cache" "w.whl" "http://host/w.whl" ".t1" none).outcome
        = Except.ok (cached_wheel_path "/cache" "w.whl")
    ∧ (download_wheel_cached ⟨false, "x", false, "x", false, "x", none, "x", false, "x"⟩
          "/cache" "w.whl" "http://host/w.whl" ".t2"
          (download_wheel_cached ⟨true, "", true, "", true, "", some [7, 7], "", true, ""⟩
              "/cache" "w.whl" "http://host/w.whl" ".t1" none).finalContent)
        = ⟨(download_wheel_cached ⟨true, "", true, "", true, "", some [7, 7], "", true, ""⟩
              "/cache" "w.whl" "http://host/w.whl" ".t1" none).finalContent,
            Except.ok (cached_wheel_path "/cache" "w.whl"), false⟩ :=
  (claim_C2_cache_hit_idempotent
    ⟨true, "", true, "", true, "", some [7, 7], "", true, ""⟩
    ⟨false, "x", false, "x", false, "x", none, "x", false, "x"⟩
    "/cache" "w.whl" "http://host/w.whl" ".t1" ".t2"
    ⟨cached_wheel_path "/cache" "w.whl", rfl⟩).2

/-! ## Claim C8 — absent console_scripts section is not an error -/

/-- C8: if `entry_points.txt` parses but has no `console_scripts` section,
`unwrap_or_default()` turns the absent section into an empty mapping: the
package's installation succeeds having performed only the tree copy (zero
launchers written). -/
theorem claim_C8_missing_console_scripts_section_ok (unixFamily : Bool) (o : PkgOutcome)
    (target : InstallTarget) (dataDir name version : String) (log : List Action)
    (table : IniTable)
    (hcopy : o.copyOk = true)
    (hini : o.iniRead = some (Except.ok table))
    (hns : alookup "console_scripts" table = none) :
    installPackage unixFamily o target dataDir name version log
      = (log ++ [Action.copyTree name (unpacked_wheel_path dataDir name version)
          target.site_packages], none) := by
  simp [installPackage, hcopy, hini, hns, installEntries]

/-- Witness for C8: a parsed table with only a `gui_scripts` section installs
successfully with just the tree copy. -/
theorem claim_C8_witness :
    installPackage true
        ⟨true, some (Except.ok [("gui_scripts", [])]), fun _ => true, fun _ => "",
          fun _ => true, fun _ => ""⟩
        ⟨"/venv/bin", "/venv/bin/python", "/venv/lib/site-packages"⟩
        "/data" "pip" "23.2.1" []
      = ([Action.copyTree "pip" (unpacked_wheel_path "/data" "pip" "23.2.1")
          "/venv/lib/site-packages"], none) :=
  claim_C8_missing_console_scripts_section_ok true
    ⟨true, some (Except.ok [("gui_scripts", [])]), fun _ => true, fun _ => "",
      fun _ => true, fun _ => ""⟩
    ⟨"/venv/bin", "/venv/bin/python", "/venv/lib/site-packages"⟩
    "/data" "pip" "23.2.1" [] [("gui_scripts", [])] rfl rfl rfl

/-! ## Claim C9 — launcher written under the command name, marked executable -/

/-- C9: a successfully parsed `console_scripts` entry makes the loop write the
rendered launcher to `bin_dir/<key>` and, on unix-family targets, mark it
`0o755` (execute for owner, group and other; mode 493 has bits 0, 3 and 6
set); on non-unix targets the permission step is omitted (a no-op). -/
theorem claim_C9_launcher_write_and_permissions (unixFamily : Bool) (o : PkgOutcome)
    (target : InstallTarget) (pkg key import_from function : String)
    (value : Option String) (rest : List (String × Option String)) (log : List Action)
    (hp : parse_entry pkg key value = Except.ok (import_from, function))
    (hw : o.writeOk key = true)
    (hm : unixFamily = true → o.permsOk key = true) :
    installEntries unixFamily o target pkg ((key, value) :: rest) log
      = installEntries unixFamily o target pkg rest
          (log ++ entryActions unixFamily target pkg key import_from function)
    ∧ Nat.testBit 493 0 = true ∧ Nat.testBit 493 3 = true ∧ Nat.testBit 493 6 = true := by
  refine ⟨?_, by decide, by decide, by decide⟩
  cases unixFamily with
  | true =>
    have hpm := hm rfl
    simp [installEntries, hp, hw, hpm, entryActions, List.append_assoc]
  | false =>
    simp [installEntries, hp, hw, entryActions]

/-- Witness for C9 at the spec's end-to-end example entry
`pip = pip._internal.cli.main:main` on a unix-family target. -/
theorem claim_C9_witness :
    installEntries true
        ⟨true, none, fun _ => true, fun _ => "", fun _ => true, fun _ => ""⟩
        ⟨"/venv/bin", "/venv/bin/python", "/venv/lib/site-packages"⟩
        "pip" [("pip", some "pip._internal.cli.main:main")] []
      = installEntries true
          ⟨true, none, fun _ => true, fun _ => "", fun _ => true, fun _ => ""⟩
          ⟨"/venv/bin", "/venv/bin/python", "/venv/lib/site-packages"⟩
          "pip" []
          ([] ++ entryActions true ⟨"/venv/bin", "/venv/bin/python", "/venv/lib/site-packages"⟩
            "pip" "pip" "pip._internal.cli.main" "main")
    ∧ Nat.testBit 493 0 = true ∧ Nat.testBit 493 3 = true ∧ Nat.testBit 493 6 = true :=
  claim_C9_launcher_write_and_permissions true
    ⟨true, none, fun _ => true, fun _ => "", fun _ => true, fun _ => ""⟩
    ⟨"/venv/bin", "/venv/bin/python", "/venv/lib/site-packages"⟩
    "pip" "pip" "pip._internal.cli.main" "main"
    (some "pip._internal.cli.main:main") [] []
    rfl rfl (fun _ => rfl)

/-! ## Association-list and well-formedness lemmas for directory trees -/

theorem alookup_aset_eq {α : Type} (n : String) (v : α) (d : List (String × α)) :
    alookup n (aset n v d) = some v := by
  induction d with
  | nil => simp [alookup, aset]
  | cons hd tl ih =>
    obtain ⟨m, w⟩ := hd
    by_cases hm : m = n
    · subst hm
      simp [alookup, aset]
    · simp [alookup, aset, hm, ih]

theorem alookup_aset_ne {α : Type} (m n : String) (v : α) (d : List (String × α))
    (h : m ≠ n) : alookup n (aset m v d) = alookup n d := by
  induction d with
  | nil => simp [alookup, aset, h]
  | cons hd tl ih =>
    obtain ⟨k, w⟩ := hd
    by_cases hk : k = m
    · subst hk
      simp [alookup, aset, h]
    · by_cases hkn : k = n
      · subst hkn
        simp [alookup, aset, hk]
      · simp [alookup, aset, hk, hkn, ih]

theorem aset_of_alookup_none {α : Type} (n : String) (v : α) (d : List (String × α))
    (h : alookup n d = none) : aset n v d = d ++ [(n, v)] := by
  induction d with
  | nil => simp [aset]
  | cons hd tl ih =>
    obtain ⟨m, w⟩ := hd
    by_cases hm : m = n
    · subst hm
      simp [alookup] at h
    · simp only [alookup, if_neg hm] at h
      simp [aset, hm, ih h]

/-- Decompose well-formedness of a nonempty directory listing. -/
theorem nodeWf_cons (n : String) (v : Node) (rest : List (String × Node))
    (h : nodeWf (Node.dir ((n, v) :: rest)) = true) :
    (rest.map Prod.fst).contains n = false ∧ nodeWf v = true
      ∧ nodeWf (Node.dir rest) = true := by
  rw [nodeWf] at h
  simp only [Bool.and_eq_true, Bool.not_eq_eq_eq_not, Bool.not_true] at h
  exact ⟨h.1.1, h.1.2, h.2⟩

theorem alookup_none_of_not_contains {α : Type} (n : String) (es : List (String × α))
    (h : (es.map Prod.fst).contains n = false) : alookup n es = none := by
  induction es with
  | nil => rfl
  | cons hd tl ih =>
    obtain ⟨m, w⟩ := hd
    simp only [List.map_cons, List.contains_cons, Bool.or_eq_false_iff] at h
    have hm : m ≠ n := by
      intro he
      subst he
      simp at h
    simp [alookup, hm, ih h.2]

/-- In a well-formed directory, every looked-up child is well-formed. -/
theorem nodeWf_alookup (n : String) (es : List (String × Node)) (v : Node)
    (hwf : nodeWf (Node.dir es) = true) (h : alookup n es = some v) :
    nodeWf v = true := by
  induction es with
  | nil => simp [alookup] at h
  | cons hd tl ih =>
    obtain ⟨m, w⟩ := hd
    obtain ⟨_, hw, htl⟩ := nodeWf_cons m w tl hwf
    by_cases hm : m = n
    · subst hm
      simp [alookup] at h
      subst h
      exact hw
    · simp only [alookup, if_neg hm] at h
      exact ih htl h

/-! ## `copy_dir_all` into a fresh destination is the identity (C3) -/

/-- Copying well-formed source entries into a destination listing disjoint
from them appends them verbatim. -/
theorem copyEntries_fresh (es d : List (String × Node))
    (hwf : nodeWf (Node.dir es) = true)
    (hdisj : ∀ k v, alookup k es = some v → alookup k d = none) :
    copyEntries es d = Except.ok (d ++ es) := by
  induction es, d using copyEntries.induct with
  | case1 d => simp [copyEntries]
  | case2 name c rest d entries hd =>
    have := hdisj name (Node.file c) (by simp [alookup])
    rw [this] at hd
    cases hd
  | case3 name c rest d hnotdir ih =>
    obtain ⟨hcon, _, htl⟩ := nodeWf_cons name (Node.file c) rest hwf
    have hnone : alookup name rest = none := alookup_none_of_not_contains name rest hcon
    have hd : alookup name d = none := hdisj name (Node.file c) (by simp [alookup])
    have hstep : copyEntries ((name, Node.file c) :: rest) d
        = copyEntries rest (aset name (Node.file c) d) := by
      rw [copyEntries, hd]
    rw [hstep, aset_of_alookup_none name (Node.file c) d hd]
    have hdisj' : ∀ k v, alookup k rest = some v → alookup k (d ++ [(name, Node.file c)]) = none := by
      intro k v hk
      have hkne : name ≠ k := by
        intro he
        subst he
        rw [hnone] at hk
        cases hk
      have hkd : alookup k d = none := by
        apply hdisj k v
        simp [alookup, if_neg hkne, hk]
      rw [← aset_of_alookup_none name (Node.file c) d hd]
      rw [alookup_aset_ne name k _ d hkne]
      exact hkd
    rw [← aset_of_alookup_none name (Node.file c) d hd] at hdisj' ⊢
    rw [ih htl hdisj']
    rw [aset_of_alookup_none name (Node.file c) d hd]
    simp
  | case4 name es rest d content hd =>
    have := hdisj name (Node.dir es) (by simp [alookup])
    rw [this] at hd
    cases hd
  | case5 name es rest d dEs hd sub hok ih1 ih2 =>
    have := hdisj name (Node.dir es) (by simp [alookup])
    rw [this] at hd
    cases hd
  | case6 name es rest d dEs hd e herr ih =>
    have := hdisj name (Node.dir es) (by simp [alookup])
    rw [this] at hd
    cases hd
  | case7 name es rest d hd sub hok ih1 ih2 =>
    obtain ⟨hcon, hes, htl⟩ := nodeWf_cons name (Node.dir es) rest hwf
    have hnone : alookup name rest = none := alookup_none_of_not_contains name rest hcon
    have hid : copyEntries es [] = Except.ok es := by
      have := ih1 hes (by intro k v _; rfl)
      simpa using this
    have hsub : sub = es := by
      rw [hid] at hok
      exact (Except.ok.inj hok).symm
    rw [hsub] at ih2
    have hstep : copyEntries ((name, Node.dir es) :: rest) d
        = copyEntries rest (aset name (Node.dir es) d) := by
      rw [copyEntries, hd, hid]
    rw [hstep]
    have hdisj' : ∀ k v, alookup k rest = some v → alookup k (aset name (Node.dir es) d) = none := by
      intro k v hk
      have hkne : name ≠ k := by
        intro he
        subst he
        rw [hnone] at hk
        cases hk
      have hkd : alookup k d = none := by
        apply hdisj k v
        simp [alookup, if_neg hkne, hk]
      rw [alookup_aset_ne name k _ d hkne]
      exact hkd
    rw [ih2 htl hdisj']
    rw [aset_of_alookup_none name (Node.dir es) d hd]
    simp
  | case8 name es rest d hd e herr ih =>
    obtain ⟨_, hes, _⟩ := nodeWf_cons name (Node.dir es) rest hwf
    have hid : copyEntries es [] = Except.ok es := by
      have := ih hes (by intro k v _; rfl)
      simpa using this
    rw [hid] at herr
    cases herr

/-! ## Claim C3 — replicator fidelity (corrected) -/

/-- C3 counterexample: `copy_dir_all` merges into a pre-existing destination,
so after a successful copy the destination tree need not equal the source
tree.  Here the destination keeps its pre-existing `old.txt`, which the
source does not contain. -/
theorem claim_C3_counterexample :
    copy_dir_all (Node.dir [("a.txt", Node.file "hi")])
        (some (Node.dir [("old.txt", Node.file "keep")]))
      = Except.ok (Node.dir [("old.txt", Node.file "keep"), ("a.txt", Node.file "hi")])
    ∧ lookupPath ["old.txt"]
        (Node.dir [("old.txt", Node.file "keep"), ("a.txt", Node.file "hi")])
        = some (Node.file "keep")
    ∧ lookupPath ["old.txt"] (Node.dir [("a.txt", Node.file "hi")]) = none := by
  refine ⟨?_, ?_, ?_⟩ <;>
    simp [copy_dir_all, copyEntries, alookup, aset, lookupPath, Except.map]

/-- C3 as amended: when nothing pre-exists at the destination, a successful
`copy_dir_all` reproduces the (well-formed) source tree exactly — identical
relative paths and identical file contents; with a pre-existing destination
only the paths mirrored from the source are guaranteed (the destination may
keep extra entries). -/
theorem claim_C3_amended_fresh_copy_is_identity (es : List (String × Node))
    (hwf : nodeWf (Node.dir es) = true) :
    copy_dir_all (Node.dir es) none = Except.ok (Node.dir es) := by
  simp only [copy_dir_all]
  rw [copyEntries_fresh es [] hwf (by intro k v hv; rfl)]
  simp [Except.map]

/-- Witness for the amended C3 at the spec's example tree
`{a/b.txt: "hi", a/c/d.txt: "x"}`. -/
theorem claim_C3_amended_witness :
    copy_dir_all (Node.dir [("a", Node.dir [("b.txt", Node.file "hi"),
        ("c", Node.dir [("d.txt", Node.file "x")])])]) none
      = Except.ok (Node.dir [("a", Node.dir [("b.txt", Node.file "hi"),
          ("c", Node.dir [("d.txt", Node.file "x")])])]) :=
  claim_C3_amended_fresh_copy_is_identity _ (by simp [nodeWf, alookup])

/-! ## Frame lemmas for `copy_dir_all` (C10) -/

/-- Keys absent from the source entries are never rewritten by the copy. -/
theorem copyEntries_untouched (es d : List (String × Node)) :
    ∀ (d' : List (String × Node)) (n : String),
      copyEntries es d = Except.ok d' → alookup n es = none →
      alookup n d' = alookup n d := by
  induction es, d using copyEntries.induct with
  | case1 d =>
    intro d' n h _
    rw [copyEntries] at h
    rw [← Except.ok.inj h]
  | case2 name c rest d entries hd =>
    intro d' n h _
    simp only [copyEntries, hd] at h
    exact Except.noConfusion h
  | case3 name c rest d hnotdir ih =>
    intro d' n h hn
    have hname : ¬ (name = n) := by
      intro he
      simp [alookup, he] at hn
    have hrest : alookup n rest = none := by
      simpa [alookup, hname] using hn
    cases hld : alookup name d with
    | none =>
      simp only [copyEntries, hld] at h
      rw [ih d' n h hrest, alookup_aset_ne name n _ d hname]
    | some v =>
      cases v with
      | file cc =>
        simp only [copyEntries, hld] at h
        rw [ih d' n h hrest, alookup_aset_ne name n _ d hname]
      | dir ee => exact (hnotdir ee hld).elim
  | case4 name es0 rest d content hd =>
    intro d' n h _
    simp only [copyEntries, hd] at h
    exact Except.noConfusion h
  | case5 name es0 rest d dEs hd sub hok ih1 ih2 =>
    intro d' n h hn
    have hname : ¬ (name = n) := by
      intro he
      simp [alookup, he] at hn
    have hrest : alookup n rest = none := by
      simpa [alookup, hname] using hn
    simp only [copyEntries, hd, hok] at h
    rw [ih2 d' n h hrest, alookup_aset_ne name n _ d hname]
  | case6 name es0 rest d dEs hd e herr ih =>
    intro d' n h _
    simp only [copyEntries, hd, herr] at h
    exact Except.noConfusion h
  | case7 name es0 rest d hd sub hok ih1 ih2 =>
    intro d' n h hn
    have hname : ¬ (name = n) := by
      intro he
      simp [alookup, he] at hn
    have hrest : alookup n rest = none := by
      simpa [alookup, hname] using hn
    simp only [copyEntries, hd, hok] at h
    rw [ih2 d' n h hrest, alookup_aset_ne name n _ d hname]
  | case8 name es0 rest d hd e herr ih =>
    intro d' n h _
    simp only [copyEntries, hd, herr] at h
    exact Except.noConfusion h

/-- A file entry of the source lands verbatim in the result, and a successful
copy implies no directory of that name pre-existed at the destination. -/
theorem copyEntries_hit_file (es d : List (String × Node)) :
    ∀ (d' : List (String × Node)) (n c : String),
      copyEntries es d = Except.ok d' → nodeWf (Node.dir es) = true →
      alookup n es = some (Node.file c) →
      alookup n d' = some (Node.file c) ∧ ∀ ee, alookup n d ≠ some (Node.dir ee) := by
  induction es, d using copyEntries.induct with
  | case1 d =>
    intro d' n c h hwf hn
    simp [alookup] at hn
  | case2 name c0 rest d entries hd =>
    intro d' n c h hwf hn
    simp only [copyEntries, hd] at h
    exact Except.noConfusion h
  | case3 name c0 rest d hnotdir ih =>
    intro d' n c h hwf hn
    obtain ⟨hcon, _, htl⟩ := nodeWf_cons name (Node.file c0) rest hwf
    by_cases hname : name = n
    · subst hname
      have hc : Node.file c0 = Node.file c := by simpa [alookup] using hn
      have hrest : alookup name rest = none := alookup_none_of_not_contains name rest hcon
      cases hld : alookup name d with
      | none =>
        simp only [copyEntries, hld] at h
        have hu := copyEntries_untouched rest (aset name (Node.file c0) d) d' name h hrest
        constructor
        · rw [hu, alookup_aset_eq, hc]
        · intro ee hee
          simp at hee
      | some v =>
        cases v with
        | file cc =>
          simp only [copyEntries, hld] at h
          have hu := copyEntries_untouched rest (aset name (Node.file c0) d) d' name h hrest
          constructor
          · rw [hu, alookup_aset_eq, hc]
          · intro ee hee
            simp at hee
        | dir ee => exact (hnotdir ee hld).elim
    · have hn' : alookup n rest = some (Node.file c) := by
        simpa [alookup, hname] using hn
      cases hld : alookup name d with
      | none =>
        simp only [copyEntries, hld] at h
        have hres := ih d' n c h htl hn'
        refine ⟨hres.1, ?_⟩
        intro ee hee
        apply hres.2 ee
        rw [alookup_aset_ne name n _ d hname]
        exact hee
      | some v =>
        cases v with
        | file cc =>
          simp only [copyEntries, hld] at h
          have hres := ih d' n c h htl hn'
          refine ⟨hres.1, ?_⟩
          intro ee hee
          apply hres.2 ee
          rw [alookup_aset_ne name n _ d hname]
          exact hee
        | dir ee => exact (hnotdir ee hld).elim
  | case4 name es0 rest d content hd =>
    intro d' n c h hwf hn
    simp only [copyEntries, hd] at h
    exact Except.noConfusion h
  | case5 name es0 rest d dEs hd sub0 hok ih1 ih2 =>
    intro d' n c h hwf hn
    obtain ⟨hcon, hwfes, htl⟩ := nodeWf_cons name (Node.dir es0) rest hwf
    by_cases hname : name = n
    · subst hname
      have : Node.dir es0 = Node.file c := by simpa [alookup] using hn
      simp at this
    · have hn' : alookup n rest = some (Node.file c) := by
        simpa [alookup, hname] using hn
      simp only [copyEntries, hd, hok] at h
      have hres := ih2 d' n c h htl hn'
      refine ⟨hres.1, ?_⟩
      intro ee hee
      apply hres.2 ee
      rw [alookup_aset_ne name n _ d hname]
      exact hee
  | case6 name es0 rest d dEs hd e herr ih =>
    intro d' n c h hwf hn
    simp only [copyEntries, hd, herr] at h
    exact Except.noConfusion h
  | case7 name es0 rest d hd sub0 hok ih1 ih2 =>
    intro d' n c h hwf hn
    obtain ⟨hcon, hwfes, htl⟩ := nodeWf_cons name (Node.dir es0) rest hwf
    by_cases hname : name = n
    · subst hname
      have : Node.dir es0 = Node.file c := by simpa [alookup] using hn
      simp at this
    · have hn' : alookup n rest = some (Node.file c) := by
        simpa [alookup, hname] using hn
      simp only [copyEntries, hd, hok] at h
      have hres := ih2 d' n c h htl hn'
      refine ⟨hres.1, ?_⟩
      intro ee hee
      apply hres.2 ee
      rw [alookup_aset_ne name n _ d hname]
      exact hee
  | case8 name es0 rest d hd e herr ih =>
    intro d' n c h hwf hn
    simp only [copyEntries, hd, herr] at h
    exact Except.noConfusion h

/-- A directory entry of the source lands in the result as the recursive
merge of the source child into whatever directory (or nothing) sat at that
name in the destination; a successful copy rules out a pre-existing file of
that name. -/
theorem copyEntries_hit_dir (es d : List (String × Node)) :
    ∀ (d' : List (String × Node)) (n : String) (ses : List (String × Node)),
      copyEntries es d = Except.ok d' → nodeWf (Node.dir es) = true →
      alookup n es = some (Node.dir ses) →
      ∃ sub, alookup n d' = some (Node.dir sub)
        ∧ ((∃ dEs, alookup n d = some (Node.dir dEs) ∧ copyEntries ses dEs = Except.ok sub)
            ∨ (alookup n d = none ∧ copyEntries ses [] = Except.ok sub)) := by
  induction es, d using copyEntries.induct with
  | case1 d =>
    intro d' n ses h hwf hn
    simp [alookup] at hn
  | case2 name c0 rest d entries hd =>
    intro d' n ses h hwf hn
    simp only [copyEntries, hd] at h
    exact Except.noConfusion h
  | case3 name c0 rest d hnotdir ih =>
    intro d' n ses h hwf hn
    obtain ⟨hcon, _, htl⟩ := nodeWf_cons name (Node.file c0) rest hwf
    by_cases hname : name = n
    · subst hname
      have : Node.file c0 = Node.dir ses := by simpa [alookup] using hn
      simp at this
    · have hn' : alookup n rest = some (Node.dir ses) := by
        simpa [alookup, hname] using hn
      cases hld : alookup name d with
      | none =>
        simp only [copyEntries, hld] at h
        obtain ⟨sub, h1, h2⟩ := ih d' n ses h htl hn'
        refine ⟨sub, h1, ?_⟩
        rw [alookup_aset_ne name n _ d hname] at h2
        exact h2
      | some v =>
        cases v with
        | file cc =>
          simp only [copyEntries, hld] at h
          obtain ⟨sub, h1, h2⟩ := ih d' n ses h htl hn'
          refine ⟨sub, h1, ?_⟩
          rw [alookup_aset_ne name n _ d hname] at h2
          exact h2
        | dir ee => exact (hnotdir ee hld).elim
  | case4 name es0 rest d content hd =>
    intro d' n ses h hwf hn
    simp only [copyEntries, hd] at h
    exact Except.noConfusion h
  | case5 name es0 rest d dEs hd sub0 hok ih1 ih2 =>
    intro d' n ses h hwf hn
    obtain ⟨hcon, hwfes, htl⟩ := nodeWf_cons name (Node.dir es0) rest hwf
    simp only [copyEntries, hd, hok] at h
    by_cases hname : name = n
    · subst hname
      have hses : es0 = ses := by
        have hh : Node.dir es0 = Node.dir ses := by simpa [alookup] using hn
        exact Node.dir.inj hh
      subst hses
      have hrest : alookup name rest = none := alookup_none_of_not_contains name rest hcon
      have hu := copyEntries_untouched rest (aset name (Node.dir sub0) d) d' name h hrest
      refine ⟨sub0, ?_, Or.inl ⟨dEs, hd, hok⟩⟩
      rw [hu, alookup_aset_eq]
    · have hn' : alookup n rest = some (Node.dir ses) := by
        simpa [alookup, hname] using hn
      obtain ⟨sub, h1, h2⟩ := ih2 d' n ses h htl hn'
      refine ⟨sub, h1, ?_⟩
      rw [alookup_aset_ne name n _ d hname] at h2
      exact h2
  | case6 name es0 rest d dEs hd e herr ih =>
    intro d' n ses h hwf hn
    simp only [copyEntries, hd, herr] at h
    exact Except.noConfusion h
  | case7 name es0 rest d hd sub0 hok ih1 ih2 =>
    intro d' n ses h hwf hn
    obtain ⟨hcon, hwfes, htl⟩ := nodeWf_cons name (Node.dir es0) rest hwf
    simp only [copyEntries, hd, hok] at h
    by_cases hname : name = n
    · subst hname
      have hses : es0 = ses := by
        have hh : Node.dir es0 = Node.dir ses := by simpa [alookup] using hn
        exact Node.dir.inj hh
      subst hses
      have hrest : alookup name rest = none := alookup_none_of_not_contains name rest hcon
      have hu := copyEntries_untouched rest (aset name (Node.dir sub0) d) d' name h hrest
      refine ⟨sub0, ?_, Or.inr ⟨hd, hok⟩⟩
      rw [hu, alookup_aset_eq]
    · have hn' : alookup n rest = some (Node.dir ses) := by
        simpa [alookup, hname] using hn
      obtain ⟨sub, h1, h2⟩ := ih2 d' n ses h htl hn'
      refine ⟨sub, h1, ?_⟩
      rw [alookup_aset_ne name n _ d hname] at h2
      exact h2
  | case8 name es0 rest d hd e herr ih =>
    intro d' n ses h hwf hn
    simp only [copyEntries, hd, herr] at h
    exact Except.noConfusion h

theorem alookup_sizeOf_lt (n : String) (es : List (String × Node)) (v : Node)
    (h : alookup n es = some v) : sizeOf v < sizeOf es := by
  induction es with
  | nil => simp [alookup] at h
  | cons hd tl ih =>
    obtain ⟨m, w⟩ := hd
    by_cases hm : m = n
    · have hv : w = v := by simpa [alookup, hm] using h
      subst hv
      simp only [List.cons.sizeOf_spec, Prod.mk.sizeOf_spec]
      omega
    · simp only [alookup, if_neg hm] at h
      have := ih h
      simp only [List.cons.sizeOf_spec, Prod.mk.sizeOf_spec]
      omega

/-- Frame property of the copy loop: any path missing from the source entries
reads the same in the destination before and after a successful copy. -/
theorem copyEntries_frame : ∀ (N : Nat) (es d d' : List (String × Node)) (n : String)
    (q : List String), sizeOf es ≤ N →
    copyEntries es d = Except.ok d' → nodeWf (Node.dir es) = true →
    (alookup n es).bind (lookupPath q) = none →
    (alookup n d').bind (lookupPath q) = (alookup n d).bind (lookupPath q) := by
  intro N
  induction N with
  | zero =>
    intro es d d' n q hsz h hwf hn
    cases es with
    | nil =>
      rw [copyEntries] at h
      rw [← Except.ok.inj h]
    | cons hd0 tl =>
      exfalso
      simp only [List.cons.sizeOf_spec] at hsz
      omega
  | succ N ihN =>
    intro es d d' n q hsz h hwf hn
    cases hes : alookup n es with
    | none =>
      rw [copyEntries_untouched es d d' n h hes]
    | some v =>
      cases v with
      | file c =>
        obtain ⟨h1, h2⟩ := copyEntries_hit_file es d d' n c h hwf hes
        rw [hes] at hn
        cases q with
        | nil => simp [lookupPath] at hn
        | cons m q' =>
          rw [h1]
          cases hld : alookup n d with
          | none => simp [lookupPath]
          | some w =>
            cases w with
            | file cc => simp [lookupPath]
            | dir ee => exact (h2 ee hld).elim
      | dir ses =>
        obtain ⟨sub, h1, h2⟩ := copyEntries_hit_dir es d d' n ses h hwf hes
        rw [hes] at hn
        cases q with
        | nil => simp [lookupPath] at hn
        | cons m q' =>
          rw [h1]
          have hwfses : nodeWf (Node.dir ses) = true := nodeWf_alookup n es (Node.dir ses) hwf hes
          have hsz' : sizeOf ses ≤ N := by
            have hlt := alookup_sizeOf_lt n es (Node.dir ses) hes
            simp only [Node.dir.sizeOf_spec] at hlt
            omega
          have hn' : (alookup m ses).bind (lookupPath q') = none := by
            simpa [lookupPath] using hn
          cases h2 with
          | inl hcase =>
            obtain ⟨dEs, hdd, hcopy⟩ := hcase
            have hrec := ihN ses dEs sub m q' hsz' hcopy hwfses hn'
            rw [hdd]
            simpa [lookupPath] using hrec
          | inr hcase =>
            obtain ⟨hdd, hcopy⟩ := hcase
            have hrec := ihN ses [] sub m q' hsz' hcopy hwfses hn'
            rw [hdd]
            simp only [lookupPath, Option.some_bind, Option.none_bind]
            simpa [lookupPath, alookup] using hrec

/-! ## Claim C10 — `copy_dir_all` is purely additive on the destination -/

/-- C10: for every pre-existing destination tree, a successful
`copy_dir_all src dst` leaves every path of `dst` that does not correspond to
an entry of the (well-formed) source tree exactly as it was: only paths
mirrored from `src` are created or overwritten. -/
theorem claim_C10_copy_additive (src dst dst' : Node) (p : List String)
    (hwf : nodeWf src = true)
    (hc : copy_dir_all src (some dst) = Except.ok dst')
    (hp : p ≠ [])
    (hmiss : lookupPath p src = none) :
    lookupPath p dst' = lookupPath p dst := by
  cases src with
  | file c =>
    cases dst with
    | file cc => simp [copy_dir_all] at hc
    | dir dEs => simp [copy_dir_all] at hc
  | dir es =>
    cases dst with
    | file cc => simp [copy_dir_all] at hc
    | dir dEs =>
      cases hce : copyEntries es dEs with
      | error e =>
        simp only [copy_dir_all, hce] at hc
        simp [Except.map] at hc
      | ok d2 =>
        have hdst' : dst' = Node.dir d2 := by
          simp only [copy_dir_all, hce] at hc
          simp only [Except.map] at hc
          exact (Except.ok.inj hc).symm
        subst hdst'
        cases p with
        | nil => exact (hp rfl).elim
        | cons n q =>
          simp only [lookupPath]
          exact copyEntries_frame (sizeOf es) es dEs d2 n q le_rfl hce hwf
            (by simpa [lookupPath] using hmiss)

/-- Witness for C10: copying `{a.txt: "hi"}` over a destination holding
`{b.txt: "keep"}` leaves the path `b.txt` unchanged. -/
theorem claim_C10_witness :
    lookupPath ["b.txt"] (Node.dir [("b.txt", Node.file "keep"), ("a.txt", Node.file "hi")])
      = lookupPath ["b.txt"] (Node.dir [("b.txt", Node.file "keep")]) :=
  claim_C10_copy_additive (Node.dir [("a.txt", Node.file "hi")])
    (Node.dir [("b.txt", Node.file "keep")])
    (Node.dir [("b.txt", Node.file "keep"), ("a.txt", Node.file "hi")])
    ["b.txt"]
    (by simp [nodeWf])
    (by simp [copy_dir_all, copyEntries, alookup, aset, Except.map])
    (by simp)
    (by simp [lookupPath, alookup])


/-! ## Log-shape lemmas for the installer (C7) -/

/-- The entry loop only ever appends to the action log. -/
theorem installEntries_append (u : Bool) (o : PkgOutcome) (t : InstallTarget) (p : String)
    (entries : List (String × Option String)) :
    ∀ (log l : List Action),
      installEntries u o t p entries (log ++ l)
        = (log ++ (installEntries u o t p entries l).1,
           (installEntries u o t p entries l).2) := by
  induction entries with
  | nil => intro log l; simp [installEntries]
  | cons hd tl ih =>
    obtain ⟨key, value⟩ := hd
    intro log l
    cases hp : parse_entry p key value with
    | error e => simp [installEntries, hp]
    | ok pr =>
      obtain ⟨i, f⟩ := pr
      cases hw : o.writeOk key with
      | false => simp [installEntries, hp, hw]
      | true =>
        cases u with
        | false => simp [installEntries, hp, hw, List.append_assoc, ih]
        | true =>
          cases hm : o.permsOk key with
          | false => simp [installEntries, hp, hw, hm, List.append_assoc]
          | true => simp [installEntries, hp, hw, hm, List.append_assoc, ih]

/-- One package's installation only ever appends to the action log. -/
theorem installPackage_append (u : Bool) (o : PkgOutcome) (t : InstallTarget)
    (dataDir name version : String) (log : List Action) :
    installPackage u o t dataDir name version log
      = (log ++ (installPackage u o t dataDir name version []).1,
         (installPackage u o t dataDir name version []).2) := by
  cases hc : o.copyOk with
  | false => simp [installPackage, hc]
  | true =>
    cases hi : o.iniRead with
    | none => simp [installPackage, hc, hi]
    | some r =>
      cases r with
      | error e => simp [installPackage, hc, hi]
      | ok table =>
        have := installEntries_append u o t name
          ((alookup "console_scripts" table).getD []) log
          [Action.copyTree name (unpacked_wheel_path dataDir name version) t.site_packages]
        simp [installPackage, hc, hi]
        simpa using this

/-- Every action the entry loop appends is tagged with the package it runs
for. -/
theorem installEntries_tag (u : Bool) (o : PkgOutcome) (t : InstallTarget) (p : String)
    (entries : List (String × Option String)) :
    ∀ (log : List Action), (∀ a, a ∈ log → actPkg a = p) →
      ∀ a, a ∈ (installEntries u o t p entries log).1 → actPkg a = p := by
  induction entries with
  | nil =>
    intro log hlog a ha
    simp only [installEntries] at ha
    exact hlog a ha
  | cons hd tl ih =>
    obtain ⟨key, value⟩ := hd
    intro log hlog a ha
    cases hp : parse_entry p key value with
    | error e =>
      simp only [installEntries, hp] at ha
      exact hlog a ha
    | ok pr =>
      obtain ⟨i, f⟩ := pr
      cases hw : o.writeOk key with
      | false =>
        simp [installEntries, hp, hw] at ha
        exact hlog a ha
      | true =>
        cases u with
        | false =>
          simp [installEntries, hp, hw] at ha
          refine ih _ ?_ a ha
          intro b hb
          rcases List.mem_append.mp hb with hb | hb
          · exact hlog b hb
          · simp only [List.mem_singleton] at hb
            subst hb
            rfl
        | true =>
          cases hm : o.permsOk key with
          | false =>
            simp [installEntries, hp, hw, hm] at ha
            rcases ha with hb | hb
            · exact hlog a hb
            · subst hb
              rfl
          | true =>
            simp [installEntries, hp, hw, hm] at ha
            refine ih _ ?_ a ha
            intro b hb
            rcases List.mem_append.mp hb with hb | hb
            · exact hlog b hb
            · simp only [List.mem_cons, List.not_mem_nil, or_false] at hb
              rcases hb with hb | hb
              · subst hb
                rfl
              · subst hb
                rfl

/-- Every action one package's installation performs is tagged with that
package's name. -/
theorem installPackage_tag (u : Bool) (o : PkgOutcome) (t : InstallTarget)
    (dataDir name version : String) :
    ∀ a, a ∈ (installPackage u o t dataDir name version []).1 → actPkg a = name := by
  intro a ha
  cases hc : o.copyOk with
  | false => simp [installPackage, hc] at ha
  | true =>
    cases hi : o.iniRead with
    | none =>
      simp [installPackage, hc, hi] at ha
      subst ha
      rfl
    | some r =>
      cases r with
      | error e =>
        simp [installPackage, hc, hi] at ha
        subst ha
        rfl
      | ok table =>
        simp only [installPackage, hc, hi, if_true, List.nil_append] at ha
        refine installEntries_tag u o t name _ _ ?_ a ha
        intro b hb
        simp only [List.mem_singleton] at hb
        subst hb
        rfl

theorem mem_concatAll (a : Action) : ∀ ls : List (List Action),
    a ∈ concatAll ls → ∃ l, l ∈ ls ∧ a ∈ l := by
  intro ls
  induction ls with
  | nil => intro h; simp [concatAll] at h
  | cons l ls ih =>
    intro h
    simp only [concatAll, List.mem_append] at h
    rcases h with h | h
    · exact ⟨l, List.mem_cons_self _ _, h⟩
    · obtain ⟨l', hl', ha⟩ := ih h
      exact ⟨l', List.mem_cons_of_mem _ hl', ha⟩

theorem mem_take_succ {α : Type} : ∀ (l : List α) (k : Nat) (x : α),
    x ∈ l.take k → x ∈ l.take (k + 1) := by
  intro l
  induction l with
  | nil => intro k x hx; simp [List.take] at hx
  | cons a tl ih =>
    intro k x hx
    cases k with
    | zero => simp [List.take] at hx
    | succ k =>
      simp only [List.take, List.mem_cons] at hx ⊢
      rcases hx with hx | hx
      · exact Or.inl hx
      · exact Or.inr (ih k x hx)

theorem get_mem_take_succ {α : Type} : ∀ (l : List α) (k : Nat) (hk : k < l.length),
    l.get ⟨k, hk⟩ ∈ l.take (k + 1) := by
  intro l
  induction l with
  | nil => intro k hk; simp at hk
  | cons a tl ih =>
    intro k hk
    cases k with
    | zero => simp [List.take]
    | succ k =>
      simp only [List.take, List.get, List.mem_cons]
      exact Or.inr (ih k (Nat.lt_of_succ_lt_succ hk))

/-- The package loop, on a list split as `done ++ bad :: rest` where every
`done` package succeeds and `bad` fails: it performs exactly the writes of
the `done` packages followed by `bad`'s partial writes, stops with `bad`'s
error, and never reaches `rest`. -/
theorem installList_fail (u : Bool) (env : String → PkgOutcome) (t : InstallTarget)
    (dataDir : String) :
    ∀ (done : List (String × String)) (bad : String × String)
      (rest : List (String × String)) (e : String) (log : List Action),
      (∀ nv, nv ∈ done → (pkgRun u env t dataDir nv).2 = none) →
      (pkgRun u env t dataDir bad).2 = some e →
      installList u env t dataDir (done ++ bad :: rest) log
        = (log ++ concatAll (done.map (fun nv => (pkgRun u env t dataDir nv).1))
            ++ (pkgRun u env t dataDir bad).1, some e) := by
  intro done
  induction done with
  | nil =>
    intro bad rest e log hok hbad
    obtain ⟨name, version⟩ := bad
    simp only [pkgRun] at hbad
    simp only [List.nil_append, installList]
    rw [installPackage_append u (env name) t dataDir name version log]
    rw [hbad]
    simp [concatAll, pkgRun]
  | cons hd done' ih =>
    intro bad rest e log hok hbad
    obtain ⟨name, version⟩ := hd
    have hh := hok (name, version) (List.mem_cons_self _ _)
    simp only [pkgRun] at hh
    have hrec := ih bad rest e
      (log ++ (installPackage u (env name) t dataDir name version []).1)
      (fun nv hnv => hok nv (List.mem_cons_of_mem _ hnv)) hbad
    have hstep : installList u env t dataDir (((name, version) :: done') ++ bad :: rest) log
        = installList u env t dataDir (done' ++ bad :: rest)
            (log ++ (installPackage u (env name) t dataDir name version []).1) := by
      simp only [List.cons_append, installList]
      rw [installPackage_append u (env name) t dataDir name version log, hh]
      rfl
    rw [hstep, hrec]
    simp [concatAll, pkgRun, List.append_assoc]

/-! ## Claim C7 — sequential, fail-fast, no-rollback orchestration -/

/-- C7: over the fixed compiled-in package list, when every package before
index `k` succeeds and package `k` fails, `install_base_packages` performs
exactly the full writes of packages `0..k-1` followed by package `k`'s
partial writes (in order, never rolled back), stops with package `k`'s
error, and executes no step of any later package: every logged action
belongs to one of the first `k+1` packages. -/
theorem claim_C7_fail_fast_no_rollback (u : Bool) (env : String → PkgOutcome)
    (t : InstallTarget) (dataDir : String) (k : Nat) (e : String)
    (hk : k < base_packages.length)
    (hok : ∀ nv, nv ∈ base_packages.take k → (pkgRun u env t dataDir nv).2 = none)
    (hfail : (pkgRun u env t dataDir (base_packages.get ⟨k, hk⟩)).2 = some e) :
    install_base_packages u env t true dataDir
      = (concatAll ((base_packages.take k).map (fun nv => (pkgRun u env t dataDir nv).1))
          ++ (pkgRun u env t dataDir (base_packages.get ⟨k, hk⟩)).1, some e)
    ∧ ∀ a, a ∈ (install_base_packages u env t true dataDir).1 →
        actPkg a ∈ (base_packages.take (k + 1)).map Prod.fst := by
  have hsplit : base_packages
      = base_packages.take k
        ++ base_packages.get ⟨k, hk⟩ :: base_packages.drop (k + 1) := by
    match k, hk with
    | 0, _ => rfl
    | 1, _ => rfl
    | 2, _ => rfl
  have hmain : install_base_packages u env t true dataDir
      = (concatAll ((base_packages.take k).map (fun nv => (pkgRun u env t dataDir nv).1))
          ++ (pkgRun u env t dataDir (base_packages.get ⟨k, hk⟩)).1, some e) := by
    have hlist := installList_fail u env t dataDir (base_packages.take k)
      (base_packages.get ⟨k, hk⟩) (base_packages.drop (k + 1)) e [] hok hfail
    rw [← hsplit] at hlist
    unfold install_base_packages
    rw [if_pos rfl, hlist]
    simp
  refine ⟨hmain, ?_⟩
  intro a ha
  rw [hmain] at ha
  simp only [List.mem_append] at ha
  have htag : ∀ nv : String × String, ∀ b, b ∈ (pkgRun u env t dataDir nv).1 →
      actPkg b = nv.1 := by
    intro nv b hb
    exact installPackage_tag u (env nv.1) t dataDir nv.1 nv.2 b hb
  rcases ha with ha | ha
  · obtain ⟨l, hl, hal⟩ := mem_concatAll a _ ha
    simp only [List.mem_map] at hl
    obtain ⟨nv, hnv, rfl⟩ := hl
    rw [htag nv a hal]
    exact List.mem_map_of_mem Prod.fst (mem_take_succ base_packages k nv hnv)
  · rw [htag _ a ha]
    exact List.mem_map_of_mem Prod.fst (get_mem_take_succ base_packages k hk)

/-- Witness for C7: package 0 (`pip`) succeeds, package 1 (`setuptools`)
fails at its tree copy; the run stops with `setuptools`' copy error after
performing exactly `pip`'s writes followed by nothing of `wheel`. -/
theorem claim_C7_witness :
    install_base_packages true
        (fun name => if name = "setuptools"
          then ⟨false, none, fun _ => true, fun _ => "", fun _ => true, fun _ => ""⟩
          else ⟨true, some (Except.ok []), fun _ => true, fun _ => "", fun _ => true,
            fun _ => ""⟩)
        ⟨"/venv/bin", "/venv/bin/python", "/venv/lib/site-packages"⟩ true "/data"
      = (concatAll ((base_packages.take 1).map (fun nv =>
            (pkgRun true
              (fun name => if name = "setuptools"
                then ⟨false, none, fun _ => true, fun _ => "", fun _ => true, fun _ => ""⟩
                else ⟨true, some (Except.ok []), fun _ => true, fun _ => "", fun _ => true,
                  fun _ => ""⟩)
              ⟨"/venv/bin", "/venv/bin/python", "/venv/lib/site-packages"⟩ "/data" nv).1))
          ++ (pkgRun true
              (fun name => if name = "setuptools"
                then ⟨false, none, fun _ => true, fun _ => "", fun _ => true, fun _ => ""⟩
                else ⟨true, some (Except.ok []), fun _ => true, fun _ => "", fun _ => true,
                  fun _ => ""⟩)
              ⟨"/venv/bin", "/venv/bin/python", "/venv/lib/site-packages"⟩ "/data"
              (base_packages.get ⟨1, by decide⟩)).1,
          some ("Failed to copy " ++ unpacked_wheel_path "/data" "setuptools" "68.2.2"
            ++ " to " ++ "/venv/lib/site-packages")) :=
  (claim_C7_fail_fast_no_rollback true
    (fun name => if name = "setuptools"
      then ⟨false, none, fun _ => true, fun _ => "", fun _ => true, fun _ => ""⟩
      else ⟨true, some (Except.ok []), fun _ => true, fun _ => "", fun _ => true,
        fun _ => ""⟩)
    ⟨"/venv/bin", "/venv/bin/python", "/venv/lib/site-packages"⟩ "/data" 1
    ("Failed to copy " ++ unpacked_wheel_path "/data" "setuptools" "68.2.2"
      ++ " to " ++ "/venv/lib/site-packages")
    (by decide)
    (by
      intro nv hnv
      simp only [base_packages, List.take] at hnv
      simp only [List.mem_singleton] at hnv
      subst hnv
      simp [pkgRun, installPackage, installEntries, alookup])
    (by simp [pkgRun, base_packages, installPackage])).1

end VirtualenvRs
